import Mathlib

/-!
Shallow embedding of `mpm/commands.py` (sci-bots/mpm), the Microdrop plugin
manager.  The plugins directory, plugin metadata files, and the `install`,
`uninstall` and `freeze` commands are modelled as executable Lean functions;
the byte-level download loop and the plugin-descriptor grammar are modelled
separately.  The theorems settle the specification claims about this code.
-/

set_option autoImplicit false

namespace Mpm

/-- Parsed content of a plugin's `properties.yml` metadata file: the
`package_name` and `version` keys used throughout `commands.py`. -/
structure PluginMetadata where
  package_name : String
  version : String
deriving DecidableEq, Repr

/-- One immediate subdirectory of the plugins directory.  `metadata` is the
result of reading and parsing its `properties.yml`: `none` models a file that
is absent, unreadable, malformed, or missing a required key (in the source
every such case raises out of `yaml.load(path.bytes())` or the subsequent key
lookup; callers differ only in whether they catch it).  `files` lists the
remaining contents of the directory tree. -/
structure PluginDir where
  name : String
  metadata : Option PluginMetadata
  files : List String
deriving DecidableEq, Repr

/-- The plugins directory: the list of its immediate subdirectories.  A real
filesystem gives the subdirectories pairwise distinct names; theorems that
need this carry a `Nodup` hypothesis on `dirs.map PluginDir.name`. -/
structure PluginsDirectory where
  dirs : List PluginDir
deriving DecidableEq, Repr

/-- One release of a plugin as served by the remote index: its version string
and download URL (`release['url']`, line 144 of `commands.py`). -/
structure Release where
  version : String
  url : String
deriving DecidableEq, Repr

/-- Errors raised by `commands.py`, named after the spec's error taxonomy with
the concrete Python exception of the source noted for each constructor. -/
inductive MpmError where
  /-- Models the `KeyError` raised inside `pip_helpers.get_releases` when the version
  constraint excludes every release, re-raised by line 119. -/
  | noMatchingRelease
  /-- Models the `IndexError` from `releases.items()[-1]` on an empty mapping (line 117). -/
  | emptyReleases
  /-- Exception escaping `yaml.load(plugin_path.joinpath('properties.yml').bytes())`
  or the `['version']` lookup: `IOError`, a YAML parse error, or `KeyError`
  (lines 127-128 and 164). -/
  | metadataReadError (name : String)
  /-- Models the `ValueError` of line 132: the exact version is already installed. -/
  | alreadyInstalled (name version : String)
  /-- Models the `IOError` of line 195: the plugin directory does not exist. -/
  | notInstalled (name : String)
  /-- Models the `OSError` from `shutil.rmtree` on an existing directory, caused by
  external interference (permissions, concurrent access). -/
  | storageError (name : String)
  /-- Models the `OSError` from `shutil.rmtree` called on a path that does not exist
  (`path_helpers.path.rmtree` delegates to `shutil.rmtree`, which raises
  when its argument is missing). -/
  | rmtreeError (name : String)
  /-- Models the `AssertionError` of lines 166-167: extracted metadata does not match the
  requested name and version. -/
  | verificationError (name : String)
  /-- Models the `tarfile` error escaping `tar.extractall` (line 162). -/
  | extractFailure
  /-- Models the `tarfile.ReadError` from `tarfile.open` (line 159) - note this line sits
  outside the `try` block, so no rollback is attempted for it. -/
  | archiveOpenFailure
deriving DecidableEq, Repr

/-- Contents of a downloaded release archive.  `files` lists the member paths
of the tar archive; `metadata` is the parse result of its `properties.yml`
member (`none` when that member is absent or unusable). -/
structure Archive where
  files : List String
  metadata : Option PluginMetadata
deriving DecidableEq, Repr

/-- Outcome of `tar.extractall(plugin_path)` (line 162) for one run, supplied
by the environment.  `ok` means every member was extracted.  `failed k dcFirst`
means an exception was raised after `k` members had been fully extracted;
`dcFirst` records whether the attempt on the next member had already created
the target directory (extraction of a member first creates the needed
directories, then writes the file, so a failure mid-member can leave the
directory behind even with `k = 0`; any `k ≥ 1` implies the directory exists). -/
inductive ExtractOutcome where
  | ok
  | failed (k : Nat) (dcFirst : Bool)
deriving DecidableEq, Repr

/-- Environment of one `install`/`uninstall` run: the externally determined
outcomes of filesystem and archive operations.  `rmtreeFails name` models
external interference making `shutil.rmtree` fail on the existing directory
`name` (the spec's `StorageError`); `openFails` models `tarfile.open` raising
on a corrupt archive; `archive` is the downloaded archive's content and
`extract` the outcome of extracting it. -/
structure Env where
  openFails : Bool
  rmtreeFails : String → Bool
  archive : Archive
  extract : ExtractOutcome

/-- Externally visible side effects of an `install` run, in order: the
`uninstall` call for a previously installed version (line 137), the HTTP
download of the release archive (line 144), and the archive extraction
(line 162). -/
inductive Effect where
  | removeExisting (name : String)
  | download (url : String)
  | extracted
deriving DecidableEq, Repr

/-- Result of an `install` run: the returned value or raised error, the final
plugins directory, the ordered side effects, and every intermediate plugins
directory state produced during the run (in order, excluding the initial
state for the helper `installFresh`, including it for `install`). -/
structure InstallRun where
  result : Except MpmError (String × PluginMetadata)
  final : PluginsDirectory
  effects : List Effect
  visited : List PluginsDirectory

/-- Look up the immediate subdirectory called `name`
(`plugins_directory.joinpath(name)` plus the `isdir` test). -/
def findDir (pd : PluginsDirectory) (name : String) : Option PluginDir :=
  pd.dirs.find? (fun d => d.name = name)

/-- Delete the subdirectory called `name` (`plugin_path.rmtree()`). -/
def removeDir (pd : PluginsDirectory) (name : String) : PluginsDirectory :=
  ⟨pd.dirs.filter (fun d => ¬ d.name = name)⟩

/-- Create the subdirectory `d` (used for the extraction of an archive into
`plugin_path`). -/
def addDir (pd : PluginsDirectory) (d : PluginDir) : PluginsDirectory :=
  ⟨pd.dirs ++ [d]⟩

/-- Replace the metadata recorded inside the subdirectory called `name`,
leaving everything else alone (used to state that `uninstall` ignores the
metadata content). -/
def setMetadata (pd : PluginsDirectory) (name : String)
    (md : Option PluginMetadata) : PluginsDirectory :=
  ⟨pd.dirs.map (fun d => if d.name = name then ⟨d.name, md, d.files⟩ else d)⟩

/-- The command `uninstall(plugin_package, plugins_directory)`, lines 178-213 of
`commands.py`: raise `IOError` when `plugins_directory/name` is not a
directory; otherwise read the metadata best-effort (the `try/except` of lines
198-202 only influences the printed message) and delete the directory tree.
Returns the raised error or `()` together with the resulting directory. -/
def uninstall (name : String) (pd : PluginsDirectory) (env : Env) :
    Except MpmError Unit × PluginsDirectory :=
  match findDir pd name with
  | none => (.error (.notInstalled name), pd)
  | some _ =>
    if env.rmtreeFails name then (.error (.storageError name), pd)
    else (.ok (), removeDir pd name)

/-- Accumulator loop of `freeze` (lines 229-239): walk the subdirectories,
skip any whose metadata read fails or whose directory name differs from the
recorded `package_name`, and append the `(package_name, version)` pairs of
the rest. -/
def freezeLoop : List PluginDir → List (String × String) → List (String × String)
  | [], acc => acc
  | d :: rest, acc =>
    match d.metadata with
    | none => freezeLoop rest acc
    | some m =>
      if d.name ≠ m.package_name then freezeLoop rest acc
      else freezeLoop rest (acc ++ [(m.package_name, m.version)])

/-- The command `freeze(plugins_directory)`, lines 216-240: the collected pairs rendered
as `"name==version"` strings. -/
def freeze (pd : PluginsDirectory) : List String :=
  (freezeLoop pd.dirs []).map (fun v => v.1 ++ "==" ++ v.2)

/-- The `except:` block of `install` (lines 168-171): delete the extracted
plugin directory, then re-raise the original error `e`.  `shutil.rmtree`
itself raises when the directory was never created (replacing `e`), and the
environment can make it fail on an existing directory.  Returns the raised
error, the resulting directory, and the list of states newly produced. -/
def rollbackStep (name : String) (e : MpmError) (env : Env)
    (pdE : PluginsDirectory) :
    MpmError × PluginsDirectory × List PluginsDirectory :=
  match findDir pdE name with
  | none => (.rmtreeError name, pdE, [])
  | some _ =>
    if env.rmtreeFails name then (.storageError name, pdE, [])
    else (e, removeDir pdE name, [removeDir pdE name])

/-- Lines 141-175 of `install`: download the release archive, open it, extract
it into `plugin_path`, verify the extracted metadata, and on any failure in
the `try` block run `rollbackStep`.  Entered only when no subdirectory called
`name` exists.  `visited` lists the states this phase creates (the caller
prepends the earlier ones). -/
def installFresh (name version url : String) (env : Env)
    (pd : PluginsDirectory) : InstallRun :=
  if env.openFails then
    ⟨.error .archiveOpenFailure, pd, [.download url], []⟩
  else
    match env.extract with
    | .failed k dcFirst =>
      if dcFirst || decide (1 ≤ k) then
        let pd1 := addDir pd ⟨name, none, env.archive.files.take k⟩
        let r := rollbackStep name .extractFailure env pd1
        ⟨.error r.1, r.2.1, [.download url, .extracted], pd1 :: r.2.2⟩
      else
        let r := rollbackStep name .extractFailure env pd
        ⟨.error r.1, r.2.1, [.download url, .extracted], r.2.2⟩
    | .ok =>
      if env.archive.files.isEmpty then
        let r := rollbackStep name (.metadataReadError name) env pd
        ⟨.error r.1, r.2.1, [.download url, .extracted], r.2.2⟩
      else
        let pd1 := addDir pd ⟨name, env.archive.metadata, env.archive.files⟩
        match env.archive.metadata with
        | none =>
          let r := rollbackStep name (.metadataReadError name) env pd1
          ⟨.error r.1, r.2.1, [.download url, .extracted], pd1 :: r.2.2⟩
        | some m =>
          if m.package_name = name ∧ m.version = version then
            ⟨.ok (name, m), pd1, [.download url, .extracted], [pd1]⟩
          else
            let r := rollbackStep name (.verificationError name) env pd1
            ⟨.error r.1, r.2.1, [.download url, .extracted], pd1 :: r.2.2⟩

/-- Lines 116-117 of `install`: the outcome of `pip_helpers.get_releases`
(passed in as `gr`; a raised error propagates, the `except KeyError: raise`
of lines 118-119 being the identity) followed by `releases.items()[-1]`,
which raises `IndexError` on an empty mapping and otherwise selects the last
entry. -/
def resolve (gr : Except MpmError (String × List Release)) :
    Except MpmError (String × Release) :=
  match gr with
  | .error e => .error e
  | .ok (name, releases) =>
    match releases.getLast? with
    | none => .error .emptyReleases
    | some rel => .ok (name, rel)

/-- The command `install(plugin_package, plugins_directory, server_url)`, lines 93-175 of
`commands.py`.  `gr` is the outcome of the `pip_helpers.get_releases` call of
line 116.  After resolution: check the existing installation (lines 121-133,
where a metadata read failure propagates), uninstall a different existing
version (lines 135-137), then download, extract and verify via
`installFresh`.  `visited` records every plugins-directory state of the run,
starting with the initial one. -/
def install (gr : Except MpmError (String × List Release)) (env : Env)
    (pd : PluginsDirectory) : InstallRun :=
  match resolve gr with
  | .error e => ⟨.error e, pd, [], [pd]⟩
  | .ok (name, rel) =>
    match findDir pd name with
    | none =>
      let r := installFresh name rel.version rel.url env pd
      ⟨r.result, r.final, r.effects, pd :: r.visited⟩
    | some d =>
      match d.metadata with
      | none => ⟨.error (.metadataReadError name), pd, [], [pd]⟩
      | some m =>
        if rel.version = m.version then
          ⟨.error (.alreadyInstalled name rel.version), pd, [], [pd]⟩
        else
          match uninstall name pd env with
          | (.error e, pd1) =>
            ⟨.error e, pd1, [.removeExisting name], [pd, pd1]⟩
          | (.ok _, pd1) =>
            let r := installFresh name rel.version rel.url env pd1
            ⟨r.result, r.final, .removeExisting name :: r.effects,
              pd :: pd1 :: r.visited⟩

/-- Comparison operator of a plugin descriptor's version constraint.
Modelled from the spec: operator ∈ {==, >, >=, <=} (spec section 3; source
docstring line 5 lists the same four forms). -/
inductive CmpOp where
  | eq | gt | ge | le
deriving DecidableEq, Repr

/-- Characters of the operator token. -/
def opRender : CmpOp → List Char
  | .eq => ['=', '=']
  | .gt => ['>']
  | .ge => ['>', '=']
  | .le => ['<', '=']

/-- Characters allowed in a package name and in a version: letters, digits,
underscore, hyphen and dot.  Modelled from the spec: the "accepted identifier
grammar" of descriptor strings such as `foo`, `foo==1.0`, `foo>=1.0`
(spec sections 3 and 4.1; the regex `CRE_PACKAGE` lives in the external
`pip_helpers` package, not in this repository). -/
def isPkgChar (c : Char) : Bool :=
  c.isAlphanum || c = '_' || c = '-' || c = '.'

/-- Structured plugin request: a name plus an optional version constraint
(spec's `PluginDescriptor`), over character lists. -/
structure ParsedRequest where
  name : List Char
  constraint : Option (CmpOp × List Char)
deriving DecidableEq, Repr

/-- Well-formed request: non-empty name of package characters, and, when a
constraint is present, a non-empty version of package characters. -/
def wellFormedRequest (r : ParsedRequest) : Prop :=
  r.name ≠ [] ∧ r.name.all isPkgChar = true ∧
    ∀ op v, r.constraint = some (op, v) → v ≠ [] ∧ v.all isPkgChar = true

/-- Render a request back to the string it was parsed from. -/
def renderRequest (r : ParsedRequest) : List Char :=
  r.name ++ (match r.constraint with
    | none => []
    | some (op, v) => opRender op ++ v)

/-- Recognise an operator token at the head of the remainder: `==`, `>=`,
`<=`, or a lone `>` (the four forms of the grammar; a lone `=` or `<` is not
an operator). -/
def parseOp (l : List Char) : Option (CmpOp × List Char) :=
  match l with
  | [] => none
  | c1 :: rest1 =>
    if c1 = '=' then
      match rest1 with
      | c2 :: rest2 => if c2 = '=' then some (.eq, rest2) else none
      | [] => none
    else if c1 = '>' then
      match rest1 with
      | c2 :: rest2 => if c2 = '=' then some (.ge, rest2) else some (.gt, rest1)
      | [] => some (.gt, [])
    else if c1 = '<' then
      match rest1 with
      | c2 :: rest2 => if c2 = '=' then some (.le, rest2) else none
      | [] => none
    else none

/-- Modelled from the spec: the match of `CRE_PACKAGE` performed by
`plugin_request` (lines 84-89; the regex itself lives in the external
`pip_helpers` package).  The longest prefix of package characters is the
name; an empty remainder gives a bare request, otherwise an operator token
followed by a non-empty version must follow.  `none` models the
`ValueError('Invalid plugin descriptor...')` of lines 86-88. -/
def parseRequest (cs : List Char) : Option ParsedRequest :=
  let name := cs.takeWhile isPkgChar
  let rest := cs.dropWhile isPkgChar
  if name.isEmpty then none
  else
    match rest with
    | [] => some ⟨name, none⟩
    | _ :: _ =>
      match parseOp rest with
      | none => none
      | some (op, v) =>
        if v.isEmpty then none
        else if v.all isPkgChar then some ⟨name, some (op, v)⟩
        else none

/-- The function `plugin_request(plugin_str)` of lines 84-89, over strings. -/
def plugin_request (s : String) : Option ParsedRequest :=
  parseRequest s.toList

/-- Split a character list at the dots. -/
def splitDots : List Char → List (List Char)
  | [] => [[]]
  | c :: rest =>
    if c = '.' then [] :: splitDots rest
    else
      match splitDots rest with
      | [] => [[c]]
      | g :: gs => (c :: g) :: gs

/-- Numeric value of one version component; a component that is not a
non-empty digit run counts as zero. -/
def componentToNat (cs : List Char) : Nat :=
  if cs ≠ [] ∧ cs.all Char.isDigit then
    cs.foldl (fun n c => n * 10 + (c.toNat - 48)) 0
  else 0

/-- Numeric components of a dotted version string, e.g. `"1.0"` to `[1, 0]`.
Modelled from the spec: version-specifier comparison per the referenced
PEP 440 convention, restricted to dotted numeric releases. -/
def versionComponents (s : String) : List Nat :=
  (splitDots s.toList).map componentToNat

/-- Drop trailing zero components, so that `1.0` and `1` compare equal. -/
def stripZeros (l : List Nat) : List Nat :=
  (l.reverse.dropWhile (fun n => n = 0)).reverse

/-- Lexicographic comparison of component lists. -/
def verLex : List Nat → List Nat → Ordering
  | [], [] => .eq
  | [], _ :: _ => .lt
  | _ :: _, [] => .gt
  | a :: as, b :: bs =>
    if a < b then .lt else if b < a then .gt else verLex as bs

/-- Version comparison: strip trailing zeros, then compare component lists. -/
def verCmp (a b : List Nat) : Ordering :=
  verLex (stripZeros a) (stripZeros b)

/-- Does version `v` satisfy the optional constraint `c`?  Modelled from the
spec: `==`, `>`, `>=`, `<=` interpreted through `verCmp`; no constraint
accepts everything. -/
def satisfies (c : Option (CmpOp × String)) (v : String) : Bool :=
  match c with
  | none => true
  | some (op, w) =>
    match op, verCmp (versionComponents v) (versionComponents w) with
    | .eq, .eq => true
    | .gt, .gt => true
    | .ge, .gt => true
    | .ge, .eq => true
    | .le, .lt => true
    | .le, .eq => true
    | _, _ => false

/-- A plugin descriptor over strings: the request's name and constraint as
handed to the index client. -/
structure PluginDescriptor where
  name : String
  constraint : Option (CmpOp × String)
deriving DecidableEq, Repr

/-- Modelled from the spec: `pip_helpers.get_releases` (line 116; the
`pip_helpers` package is an external collaborator, not part of this
repository).  It queries the index for the plugin, returning the canonical
name together with the ordered releases that satisfy the descriptor's version
constraint, and raises (surfaced by `install` as the re-raised `KeyError`,
the spec's `NoMatchingReleaseError`) when the constraint excludes every
release. -/
def get_releases (d : PluginDescriptor) (canonicalName : String)
    (idx : List Release) : Except MpmError (String × List Release) :=
  let matching := idx.filter (fun r => satisfies d.constraint r.version)
  if matching.isEmpty then .error .noMatchingRelease
  else .ok (canonicalName, matching)

/-- An `install` run on a descriptor against an index with `idx` the ordered
release list the index serves for `canonicalName`: the composition of the
`get_releases` call of line 116 with the rest of `install`. -/
def installCmd (d : PluginDescriptor) (canonicalName : String)
    (idx : List Release) (env : Env) (pd : PluginsDirectory) : InstallRun :=
  install (get_releases d canonicalName idx) env pd

/-- Download loop of `install` (lines 147-155): `total` is the declared
`Content-length`, `stream` lists the sizes of the successive chunks
`download.raw.read(1 << 8)` returns before the connection closes; once the
list is exhausted every further read returns zero bytes (a closed stream
yields the empty string forever).  The source loop has no other exit, so we
unroll it with explicit `fuel`: a run that returns `none` for every `fuel`
never terminates.  On completion the accumulated `bytes_read` is returned. -/
def downloadLoop (fuel : Nat) (total bytesRead : Nat) (stream : List Nat) :
    Option Nat :=
  match fuel with
  | 0 => none
  | f + 1 =>
    if bytesRead < total then
      match stream with
      | [] => downloadLoop f total bytesRead []
      | c :: rest => downloadLoop f total (bytesRead + c) rest
    else some bytesRead

/-- Which entry of a plugins directory the `freeze` loop keeps: the
`(package_name, version)` pair when the metadata is readable and its
`package_name` equals the directory name. -/
def pairOf (d : PluginDir) : Option (String × String) :=
  match d.metadata with
  | none => none
  | some m =>
    if d.name = m.package_name then some (m.package_name, m.version) else none

/-- The `"name==version"` string `freeze` reports for one subdirectory, when
it reports one at all (specification-side description for claim C7). -/
def entryOf (d : PluginDir) : Option String :=
  (pairOf d).map (fun v => v.1 ++ "==" ++ v.2)

/-- Specification-side statement of `freeze`: keep exactly the subdirectories
with readable, name-matching metadata and render each as `"name==version"`. -/
def freezeSpec (pd : PluginsDirectory) : List String :=
  pd.dirs.filterMap entryOf

/-- Does this run's extraction step create the target directory?  All members
extracted (`ok`): exactly when the archive has a member.  Failure: when a
member had been fully extracted or the failing attempt had already created
the directory. -/
def extractCreatesDir (a : Archive) : ExtractOutcome → Bool
  | .ok => !a.files.isEmpty
  | .failed k dcFirst => dcFirst || decide (1 ≤ k)

/-- The error the `try` block of lines 161-167 raises, if any: extraction
failure; otherwise the verification error - the metadata read of line 164
fails when the extracted tree has no readable `properties.yml` (also when
the archive was empty, so that not even the directory exists), and the
assertion of lines 166-167 fails on a name or version mismatch. -/
def tryBlockError (name version : String) (a : Archive) :
    ExtractOutcome → Option MpmError
  | .failed _ _ => some .extractFailure
  | .ok =>
    if a.files.isEmpty then some (.metadataReadError name)
    else
      match a.metadata with
      | none => some (.metadataReadError name)
      | some m =>
        if m.package_name = name ∧ m.version = version then none
        else some (.verificationError name)

/-! ### Supporting lemmas -/

theorem freezeLoop_acc (l : List PluginDir) (acc : List (String × String)) :
    freezeLoop l acc = acc ++ freezeLoop l [] := by
  induction l generalizing acc with
  | nil => simp [freezeLoop]
  | cons d rest ih =>
    rcases hd : d.metadata with _ | m
    · simp only [freezeLoop, hd]
      exact ih acc
    · by_cases hn : d.name = m.package_name
      · simp only [freezeLoop, hd, hn, ne_eq, not_true_eq_false, if_false,
          List.nil_append]
        rw [ih (acc ++ [(m.package_name, m.version)]),
          ih [(m.package_name, m.version)], List.append_assoc]
      · simp only [freezeLoop, hd, hn, ne_eq, not_false_eq_true, if_true]
        exact ih acc

theorem freezeLoop_eq_filterMap (l : List PluginDir) :
    freezeLoop l [] = l.filterMap pairOf := by
  induction l with
  | nil => simp [freezeLoop]
  | cons d rest ih =>
    rcases hd : d.metadata with _ | m
    · simp only [freezeLoop, hd, List.filterMap_cons, pairOf]
      exact ih
    · by_cases hn : d.name = m.package_name
      · simp only [freezeLoop, hd, hn, ne_eq, not_true_eq_false, if_false,
          List.nil_append, List.filterMap_cons, pairOf, if_pos hn]
        rw [freezeLoop_acc, ih]
        rfl
      · simp only [freezeLoop, hd, hn, ne_eq, not_false_eq_true, if_true,
          List.filterMap_cons, pairOf, if_neg hn]
        exact ih

theorem freeze_eq_freezeSpec (pd : PluginsDirectory) :
    freeze pd = freezeSpec pd := by
  unfold freeze freezeSpec
  rw [freezeLoop_eq_filterMap, List.map_filterMap]
  rfl

theorem pairOf_fst {d : PluginDir} {v : String × String}
    (h : pairOf d = some v) : v.1 = d.name := by
  rcases hd : d.metadata with _ | m
  · simp [pairOf, hd] at h
  · simp only [pairOf, hd] at h
    by_cases hn : d.name = m.package_name
    · rw [if_pos hn] at h
      cases h
      exact hn.symm
    · rw [if_neg hn] at h
      exact absurd h (by simp)

theorem findDir_eq_none_iff (pd : PluginsDirectory) (n : String) :
    findDir pd n = none ↔ ∀ d ∈ pd.dirs, d.name ≠ n := by
  unfold findDir
  rw [List.find?_eq_none]
  constructor
  · intro h d hd
    have := h d hd
    simpa using this
  · intro h d hd
    simpa using h d hd

theorem findDir_removeDir_self (pd : PluginsDirectory) (n : String) :
    findDir (removeDir pd n) n = none := by
  rw [findDir_eq_none_iff]
  intro d hd
  unfold removeDir at hd
  simp only [List.mem_filter] at hd
  simpa using hd.2

theorem findDir_addDir_self (pd : PluginsDirectory) (d0 : PluginDir)
    (n : String) (hn : d0.name = n) (h : findDir pd n = none) :
    findDir (addDir pd d0) n = some d0 := by
  unfold findDir at h ⊢
  unfold addDir
  simp only [List.find?_append, h, Option.none_or]
  simp [List.find?, hn]

theorem not_mem_names_removeDir (pd : PluginsDirectory) (n : String) :
    n ∉ (removeDir pd n).dirs.map PluginDir.name := by
  unfold removeDir
  simp only [List.mem_map, not_exists]
  rintro d ⟨hd, hdn⟩
  rw [List.mem_filter] at hd
  exact absurd hdn (by simpa using hd.2)

theorem names_nodup_removeDir (pd : PluginsDirectory) (n : String)
    (h : (pd.dirs.map PluginDir.name).Nodup) :
    ((removeDir pd n).dirs.map PluginDir.name).Nodup := by
  unfold removeDir
  exact h.sublist (List.Sublist.map _ (List.filter_sublist _))

theorem names_nodup_addDir (pd : PluginsDirectory) (d0 : PluginDir)
    (h : (pd.dirs.map PluginDir.name).Nodup)
    (hd0 : d0.name ∉ pd.dirs.map PluginDir.name) :
    ((addDir pd d0).dirs.map PluginDir.name).Nodup := by
  unfold addDir
  simp only [List.map_append, List.map_cons, List.map_nil]
  rw [List.nodup_append]
  refine ⟨h, List.nodup_singleton _, ?_⟩
  intro x hx hx1
  simp only [List.mem_singleton] at hx1
  exact hd0 (hx1 ▸ hx)

theorem name_not_mem_of_findDir_none (pd : PluginsDirectory) (n : String)
    (h : findDir pd n = none) : n ∉ pd.dirs.map PluginDir.name := by
  rw [findDir_eq_none_iff] at h
  simp only [List.mem_map, not_exists]
  rintro d ⟨hd, hdn⟩
  exact h d hd hdn

/-! ### Claim C4: the download loop on a short stream -/

/-- Helper for claim C4: whenever the bytes still to come are fewer than the
declared total requires, the loop guard stays true forever. -/
theorem downloadLoop_short (fuel : Nat) :
    ∀ (total bytesRead : Nat) (stream : List Nat),
      bytesRead + stream.sum < total →
      downloadLoop fuel total bytesRead stream = none := by
  induction fuel with
  | zero => intro total bytesRead stream _; rfl
  | succ f ih =>
    intro total bytesRead stream h
    have hb : bytesRead < total :=
      Nat.lt_of_le_of_lt (Nat.le_add_right _ _) h
    cases stream with
    | nil =>
      simp only [downloadLoop, if_pos hb]
      exact ih total bytesRead [] (by simpa using h)
    | cons c rest =>
      simp only [downloadLoop, if_pos hb]
      exact ih total (bytesRead + c) rest (by simp at h ⊢; omega)

/-- C4: a download stream that closes early, having delivered fewer bytes
than the declared `Content-Length`, does NOT make `install` fail with a
download error: the source loop (lines 150-155) keeps reading empty chunks
without ever advancing `bytes_read`, so for every amount of fuel the loop is
still running - the code hangs instead of failing.  Stated at the concrete
failing input of the claim: `Content-length` of 10 declared, a single 5-byte
chunk delivered, then the stream closes. -/
theorem C4_download_loop_diverges (fuel : Nat) :
    downloadLoop fuel 10 0 [5] = none :=
  downloadLoop_short fuel 10 0 [5] (by decide)

/-! ### Claim C7: `freeze` -/

/-- C7: `freeze` returns one `"name==version"` string per immediate
subdirectory whose metadata is readable and records a `package_name` equal to
the directory name, silently skipping every other subdirectory - stated as
equality with the specification-side filter-and-render `freezeSpec`, together
with the spec's concrete example: one valid plugin `foo==1.2` next to one
directory without metadata freezes to exactly `["foo==1.2"]`. -/
theorem C7_freeze :
    (∀ pd : PluginsDirectory, freeze pd = freezeSpec pd) ∧
      freeze ⟨[⟨"foo", some ⟨"foo", "1.2"⟩, ["properties.yml"]⟩,
               ⟨"bar", none, ["x"]⟩]⟩ = ["foo==1.2"] :=
  ⟨freeze_eq_freezeSpec, rfl⟩

/-! ### Claim C2: installing the exact installed version -/

/-- C2: when the resolved target version equals the version recorded in the
already-installed plugin's readable metadata, `install` fails with the
already-installed error (the `ValueError` of line 132) and the run is a
complete no-op on the filesystem: the final state is the initial one, no
side effect happens, and no other state is ever produced. -/
theorem C2_already_installed (gr : Except MpmError (String × List Release))
    (env : Env) (pd : PluginsDirectory) (name : String) (rel : Release)
    (d : PluginDir) (m : PluginMetadata)
    (h1 : resolve gr = .ok (name, rel))
    (h2 : findDir pd name = some d)
    (h3 : d.metadata = some m)
    (h4 : rel.version = m.version) :
    install gr env pd =
      ⟨.error (.alreadyInstalled name rel.version), pd, [], [pd]⟩ := by
  unfold install
  rw [h1]
  simp only [h2, h3, if_pos h4]

/-- Witness for C2 at a concrete state: `foo` installed at version `1.0`,
resolution yielding `foo==1.0` again. -/
theorem C2_already_installed_witness :
    install (.ok ("foo", [⟨"1.0", "u"⟩]))
        ⟨false, fun _ => false, ⟨[], none⟩, .ok⟩
        ⟨[⟨"foo", some ⟨"foo", "1.0"⟩, []⟩]⟩ =
      ⟨.error (.alreadyInstalled "foo" "1.0"),
        ⟨[⟨"foo", some ⟨"foo", "1.0"⟩, []⟩]⟩, [],
        [⟨[⟨"foo", some ⟨"foo", "1.0"⟩, []⟩]⟩]⟩ :=
  C2_already_installed (.ok ("foo", [⟨"1.0", "u"⟩]))
    ⟨false, fun _ => false, ⟨[], none⟩, .ok⟩
    ⟨[⟨"foo", some ⟨"foo", "1.0"⟩, []⟩]⟩ "foo" ⟨"1.0", "u"⟩
    ⟨"foo", some ⟨"foo", "1.0"⟩, []⟩ ⟨"foo", "1.0"⟩
    rfl rfl rfl rfl

theorem findDir_setMetadata (pd : PluginsDirectory) (n : String)
    (md : Option PluginMetadata) :
    findDir (setMetadata pd n md) n =
      (findDir pd n).map (fun d => ⟨d.name, md, d.files⟩) := by
  obtain ⟨l⟩ := pd
  unfold findDir setMetadata
  simp only
  induction l with
  | nil => rfl
  | cons d0 rest ih =>
    by_cases h : d0.name = n
    · simp [List.find?_cons, h]
    · simp only [List.map_cons, List.find?_cons, h, if_neg h]
      simpa [h] using ih

theorem removeDir_setMetadata (pd : PluginsDirectory) (n : String)
    (md : Option PluginMetadata) :
    removeDir (setMetadata pd n md) n = removeDir pd n := by
  obtain ⟨l⟩ := pd
  unfold removeDir setMetadata
  simp only [PluginsDirectory.mk.injEq]
  induction l with
  | nil => rfl
  | cons d0 rest ih =>
    by_cases h : d0.name = n
    · simp [List.filter_cons, h]
      simpa using ih
    · simp [List.filter_cons, h]
      simpa using ih

/-! ### Claim C10: `uninstall` deletes regardless of directory contents -/

/-- C10: whenever `pluginsDir/name` is an existing directory, `uninstall`
deletes it in full, with no condition whatsoever on its contents - `d` is
arbitrary here, so a foreign directory without metadata or one whose metadata
names a different package is deleted all the same.  Moreover the metadata
recorded in the directory influences neither the result nor the final state:
replacing it with anything (including nothing) gives the identical outcome. -/
theorem C10_uninstall_ignores_contents (name : String)
    (pd : PluginsDirectory) (d : PluginDir) (env : Env)
    (hd : findDir pd name = some d) (hrm : env.rmtreeFails name = false) :
    uninstall name pd env = (.ok (), removeDir pd name) ∧
      ∀ md, uninstall name (setMetadata pd name md) env =
        (.ok (), removeDir pd name) := by
  constructor
  · unfold uninstall
    rw [hd]
    simp [hrm]
  · intro md
    unfold uninstall
    rw [findDir_setMetadata, hd]
    simp [hrm, removeDir_setMetadata]

/-- Witness for C10: a foreign directory `foo` holding no metadata at all is
deleted in full. -/
theorem C10_witness :
    uninstall "foo" ⟨[⟨"foo", none, ["stray.txt"]⟩]⟩
        ⟨false, fun _ => false, ⟨[], none⟩, .ok⟩ =
      (.ok (), removeDir ⟨[⟨"foo", none, ["stray.txt"]⟩]⟩ "foo") :=
  (C10_uninstall_ignores_contents "foo" ⟨[⟨"foo", none, ["stray.txt"]⟩]⟩
    ⟨"foo", none, ["stray.txt"]⟩ ⟨false, fun _ => false, ⟨[], none⟩, .ok⟩
    rfl rfl).1

/-! ### Claim C8: `uninstall` error condition and effect -/

/-- C8: `uninstall` fails with the not-installed error (the `IOError` of line
195) exactly when `pluginsDir/name` is not an existing directory.  When the
directory exists (its metadata being read only best-effort, so its content
never blocks removal - no hypothesis on `d` is needed), and absent external
interference with the removal, the whole directory tree is deleted and
`freeze` no longer lists the plugin: no pair collected by the `freeze` loop
over the resulting directory carries the removed name. -/
theorem C8_uninstall (name : String) (pd : PluginsDirectory) (env : Env) :
    ((uninstall name pd env).1 = .error (.notInstalled name) ↔
      findDir pd name = none) ∧
    ∀ d, findDir pd name = some d → env.rmtreeFails name = false →
      uninstall name pd env = (.ok (), removeDir pd name) ∧
      findDir (removeDir pd name) name = none ∧
      ∀ v ∈ freezeLoop (removeDir pd name).dirs [], v.1 ≠ name := by
  constructor
  · rcases hf : findDir pd name with _ | d
    · unfold uninstall
      rw [hf]
      simp
    · unfold uninstall
      rw [hf]
      by_cases hrm : env.rmtreeFails name <;> simp [hrm, hf]
  · intro d hd hrm
    refine ⟨?_, findDir_removeDir_self pd name, ?_⟩
    · unfold uninstall
      rw [hd]
      simp [hrm]
    · intro v hv
      rw [freezeLoop_eq_filterMap] at hv
      obtain ⟨d1, hd1, hp⟩ := List.mem_filterMap.1 hv
      rw [pairOf_fst hp]
      unfold removeDir at hd1
      simp only [List.mem_filter] at hd1
      simpa using hd1.2

/-- Witness for C8: removing installed plugin `foo` from a directory that
also holds `bar`. -/
theorem C8_uninstall_witness :
    uninstall "foo" ⟨[⟨"foo", some ⟨"foo", "1.0"⟩, []⟩,
        ⟨"bar", some ⟨"bar", "2.0"⟩, []⟩]⟩
        ⟨false, fun _ => false, ⟨[], none⟩, .ok⟩ =
      (.ok (), removeDir ⟨[⟨"foo", some ⟨"foo", "1.0"⟩, []⟩,
        ⟨"bar", some ⟨"bar", "2.0"⟩, []⟩]⟩ "foo") :=
  ((C8_uninstall "foo" ⟨[⟨"foo", some ⟨"foo", "1.0"⟩, []⟩,
      ⟨"bar", some ⟨"bar", "2.0"⟩, []⟩]⟩
      ⟨false, fun _ => false, ⟨[], none⟩, .ok⟩).2
    ⟨"foo", some ⟨"foo", "1.0"⟩, []⟩ rfl rfl).1

/-! ### Claim C6: leniency of metadata reads -/

/-- C6 counterexample: the claim asserts that a directory whose metadata file
is absent or malformed is treated by the installer's check-existing step as
having no installed version, never raising.  On the code this is false: with
plugin directory `foo` present but carrying no readable `properties.yml`,
`install` propagates the metadata read failure of line 127 (an uncaught
exception from `yaml.load(plugin_path.joinpath('properties.yml').bytes())`)
and stops before any download - it does not treat `foo` as not installed. -/
theorem C6_counterexample :
    (install (.ok ("foo", [⟨"1.0", "u"⟩]))
        ⟨false, fun _ => false, ⟨[], none⟩, .ok⟩
        ⟨[⟨"foo", none, ["junk.txt"]⟩]⟩).result =
      .error (.metadataReadError "foo") ∧
    (install (.ok ("foo", [⟨"1.0", "u"⟩]))
        ⟨false, fun _ => false, ⟨[], none⟩, .ok⟩
        ⟨[⟨"foo", none, ["junk.txt"]⟩]⟩).effects = [] :=
  ⟨rfl, rfl⟩

/-- C6 as amended: the best-effort treatment of an absent, unreadable or
malformed metadata file holds for `uninstall` (the read never blocks removal)
and for `freeze` (the directory is silently skipped), but the installer's
check-existing step instead propagates the read failure: `install` fails with
the metadata read error, performs no side effect and leaves the filesystem
untouched. -/
theorem C6_metadata_read (pd : PluginsDirectory) (name : String)
    (d : PluginDir) (env : Env)
    (hd : findDir pd name = some d) (hm : d.metadata = none) :
    (env.rmtreeFails name = false →
      uninstall name pd env = (.ok (), removeDir pd name)) ∧
    freezeLoop [d] [] = [] ∧
    ∀ gr rel, resolve gr = .ok (name, rel) →
      install gr env pd =
        ⟨.error (.metadataReadError name), pd, [], [pd]⟩ := by
  refine ⟨?_, ?_, ?_⟩
  · intro hrm
    unfold uninstall
    rw [hd]
    simp [hrm]
  · simp [freezeLoop, hm]
  · intro gr rel h1
    simp [install, h1, hd, hm]

/-- Witness for C6 as amended: directory `foo` exists with no readable
metadata; `uninstall` removes it while `install` fails with the metadata
read error. -/
theorem C6_metadata_read_witness :
    uninstall "foo" ⟨[⟨"foo", none, ["junk.txt"]⟩]⟩
        ⟨false, fun _ => false, ⟨[], none⟩, .ok⟩ =
      (.ok (), removeDir ⟨[⟨"foo", none, ["junk.txt"]⟩]⟩ "foo") ∧
    install (.ok ("foo", [⟨"1.0", "u"⟩]))
        ⟨false, fun _ => false, ⟨[], none⟩, .ok⟩
        ⟨[⟨"foo", none, ["junk.txt"]⟩]⟩ =
      ⟨.error (.metadataReadError "foo"), ⟨[⟨"foo", none, ["junk.txt"]⟩]⟩,
        [], [⟨[⟨"foo", none, ["junk.txt"]⟩]⟩]⟩ := by
  have h := C6_metadata_read ⟨[⟨"foo", none, ["junk.txt"]⟩]⟩ "foo"
    ⟨"foo", none, ["junk.txt"]⟩ ⟨false, fun _ => false, ⟨[], none⟩, .ok⟩
    rfl rfl
  exact ⟨h.1 rfl, h.2.2 (.ok ("foo", [⟨"1.0", "u"⟩])) ⟨"1.0", "u"⟩ rfl⟩

theorem rollbackStep_present (name : String) (e : MpmError) (env : Env)
    (pdE : PluginsDirectory) (d : PluginDir)
    (hd : findDir pdE name = some d) (hrm : env.rmtreeFails name = false) :
    rollbackStep name e env pdE =
      (e, removeDir pdE name, [removeDir pdE name]) := by
  unfold rollbackStep
  rw [hd]
  simp [hrm]

theorem rollbackStep_absent (name : String) (e : MpmError) (env : Env)
    (pdE : PluginsDirectory) (hd : findDir pdE name = none) :
    rollbackStep name e env pdE = (.rmtreeError name, pdE, []) := by
  unfold rollbackStep
  rw [hd]

/-- Rollback behaviour of the download-extract-verify phase: under no
external interference, every failure of the `try` block leaves no directory
named `name` behind, and the raised error is the original one exactly when
the extraction had created the target directory - otherwise the rollback's
`rmtree` call on the missing directory raises in its place. -/
theorem installFresh_rollback (name version url : String) (env : Env)
    (pd : PluginsDirectory) (e : MpmError)
    (hopen : env.openFails = false)
    (hrm : env.rmtreeFails name = false)
    (hfree : findDir pd name = none)
    (he : tryBlockError name version env.archive env.extract = some e) :
    findDir (installFresh name version url env pd).final name = none ∧
    (installFresh name version url env pd).result =
      .error (if extractCreatesDir env.archive env.extract then e
              else .rmtreeError name) := by
  rcases hex : env.extract with _ | ⟨k, dc⟩
  · rw [hex] at he
    simp only [tryBlockError] at he
    by_cases hemp : env.archive.files.isEmpty
    · rw [if_pos hemp] at he
      obtain rfl : MpmError.metadataReadError name = e := by
        simpa using he
      have hr := rollbackStep_absent name (.metadataReadError name) env pd hfree
      simp [installFresh, hopen, hex, hemp, hr, extractCreatesDir, hfree]
    · rw [if_neg hemp] at he
      rcases hmd : env.archive.metadata with _ | m
      · rw [hmd] at he
        obtain rfl : MpmError.metadataReadError name = e := by
          simpa using he
        have hr := rollbackStep_present name (.metadataReadError name) env
          (addDir pd ⟨name, none, env.archive.files⟩)
          ⟨name, none, env.archive.files⟩
          (findDir_addDir_self pd _ name rfl hfree) hrm
        simp [installFresh, hopen, hex, hemp, hmd, hr,
          findDir_removeDir_self, extractCreatesDir]
      · by_cases hv : m.package_name = name ∧ m.version = version
        · simp [hmd, hv] at he
        · simp only [hmd, if_neg hv, Option.some.injEq] at he
          subst he
          have hr := rollbackStep_present name (.verificationError name) env
            (addDir pd ⟨name, some m, env.archive.files⟩)
            ⟨name, some m, env.archive.files⟩
            (findDir_addDir_self pd _ name rfl hfree) hrm
          simp [installFresh, hopen, hex, hemp, hmd, hv, hr,
            findDir_removeDir_self, extractCreatesDir]
  · rw [hex] at he
    simp only [tryBlockError] at he
    obtain rfl : MpmError.extractFailure = e := by simpa using he
    by_cases hdc : (dc || decide (1 ≤ k)) = true
    · have hr := rollbackStep_present name .extractFailure env
        (addDir pd ⟨name, none, env.archive.files.take k⟩)
        ⟨name, none, env.archive.files.take k⟩
        (findDir_addDir_self pd _ name rfl hfree) hrm
      simp [installFresh, hopen, hex, hdc, hr, findDir_removeDir_self,
        extractCreatesDir]
    · have hdc' : (dc || decide (1 ≤ k)) = false := by simpa using hdc
      have hr := rollbackStep_absent name .extractFailure env pd hfree
      simp [installFresh, hopen, hex, hdc', hr, hfree, extractCreatesDir]

/-- C1 counterexample: the claim asserts that every extraction or
verification failure propagates the original error with the target directory
removed.  With an empty release archive, `tar.extractall` succeeds without
ever creating the target directory, the verification read of line 164 then
fails - the original error - but the rollback of line 170 calls
`plugin_path.rmtree()` on a directory that does not exist, so `shutil.rmtree`
raises and its error, not the original verification error, reaches the
caller. -/
theorem C1_counterexample :
    tryBlockError "foo" "1.0" ⟨[], none⟩ .ok =
      some (.metadataReadError "foo") ∧
    (install (.ok ("foo", [⟨"1.0", "u"⟩]))
        ⟨false, fun _ => false, ⟨[], none⟩, .ok⟩ ⟨[]⟩).result =
      .error (.rmtreeError "foo") ∧
    MpmError.rmtreeError "foo" ≠ MpmError.metadataReadError "foo" :=
  ⟨rfl, rfl, by simp⟩

/-- C1 as amended: for every failure raised during archive extraction or
post-extraction verification of an install (reached either fresh or after
removal of a different installed version, with no external interference with
directory removal), the target plugin directory does not exist after
`install` returns; the original error is propagated whenever the extraction
had created the target directory, while a failure occurring before the
directory was ever created (an empty archive, or an extraction failing
before its first filesystem write) surfaces as the rollback's own
directory-removal error instead. -/
theorem C1_rollback (gr : Except MpmError (String × List Release))
    (env : Env) (pd : PluginsDirectory) (name : String) (rel : Release)
    (e : MpmError)
    (h1 : resolve gr = .ok (name, rel))
    (hentry : findDir pd name = none ∨
      ∃ d m, findDir pd name = some d ∧ d.metadata = some m ∧
        rel.version ≠ m.version)
    (hopen : env.openFails = false)
    (hrm : env.rmtreeFails name = false)
    (he : tryBlockError name rel.version env.archive env.extract = some e) :
    findDir (install gr env pd).final name = none ∧
    (install gr env pd).result =
      .error (if extractCreatesDir env.archive env.extract then e
              else .rmtreeError name) := by
  rcases hentry with hfree | ⟨d, m, hd, hm, hne⟩
  · have h := installFresh_rollback name rel.version rel.url env pd e
      hopen hrm hfree he
    simpa [install, h1, hfree] using h
  · have hun : uninstall name pd env = (.ok (), removeDir pd name) := by
      unfold uninstall
      rw [hd]
      simp [hrm]
    have h := installFresh_rollback name rel.version rel.url env
      (removeDir pd name) e hopen hrm (findDir_removeDir_self pd name) he
    simpa [install, h1, hd, hm, hne, hun] using h

/-- Witness for C1 as amended: a fresh install whose archive holds one member
but no readable metadata; the verification failure is rolled back, the
directory is gone and the original error surfaces. -/
theorem C1_rollback_witness :
    findDir (install (.ok ("foo", [⟨"1.0", "u"⟩]))
        ⟨false, fun _ => false, ⟨["a.py"], none⟩, .ok⟩ ⟨[]⟩).final "foo" =
      none ∧
    (install (.ok ("foo", [⟨"1.0", "u"⟩]))
        ⟨false, fun _ => false, ⟨["a.py"], none⟩, .ok⟩ ⟨[]⟩).result =
      .error (if extractCreatesDir ⟨["a.py"], none⟩ .ok
              then .metadataReadError "foo" else .rmtreeError "foo") :=
  C1_rollback (.ok ("foo", [⟨"1.0", "u"⟩]))
    ⟨false, fun _ => false, ⟨["a.py"], none⟩, .ok⟩ ⟨[]⟩ "foo" ⟨"1.0", "u"⟩
    (.metadataReadError "foo") rfl (Or.inl rfl) rfl rfl rfl

theorem rollbackStep_visited_sub (name : String) (e : MpmError) (env : Env)
    (pdE : PluginsDirectory) (s : PluginsDirectory)
    (hs : s ∈ (rollbackStep name e env pdE).2.2) : s = removeDir pdE name := by
  unfold rollbackStep at hs
  rcases hf : findDir pdE name with _ | d
  · rw [hf] at hs
    simp at hs
  · rw [hf] at hs
    by_cases hrm : env.rmtreeFails name
    · simp [hrm] at hs
    · simp [hrm] at hs
      exact hs

/-- Every plugins-directory state produced during the download-extract-verify
phase keeps subdirectory names pairwise distinct, provided they were distinct
on entry and the target name was free. -/
theorem installFresh_visited_nodup (name version url : String) (env : Env)
    (pd : PluginsDirectory)
    (hfree : findDir pd name = none)
    (hnd : (pd.dirs.map PluginDir.name).Nodup) :
    ∀ s ∈ (installFresh name version url env pd).visited,
      (s.dirs.map PluginDir.name).Nodup := by
  have hmem := name_not_mem_of_findDir_none pd name hfree
  have hA : ∀ (md : Option PluginMetadata) (fs : List String),
      ((addDir pd ⟨name, md, fs⟩).dirs.map PluginDir.name).Nodup :=
    fun md fs => names_nodup_addDir pd ⟨name, md, fs⟩ hnd hmem
  intro s hs
  unfold installFresh at hs
  by_cases hopen : env.openFails
  · simp [hopen] at hs
  · have hopen' : env.openFails = false := by simpa using hopen
    rw [hopen'] at hs
    simp only [Bool.false_eq_true, if_false] at hs
    rcases hex : env.extract with _ | ⟨k, dc⟩ <;> rw [hex] at hs
    · by_cases hemp : env.archive.files.isEmpty
      · simp only [hemp, if_true] at hs
        rw [rollbackStep_visited_sub name _ env pd s hs]
        exact names_nodup_removeDir pd name hnd
      · simp only [hemp, Bool.false_eq_true, if_false] at hs
        rcases hmd : env.archive.metadata with _ | m <;> rw [hmd] at hs
        · simp only [List.mem_cons] at hs
          rcases hs with rfl | hs
          · exact hA _ _
          · rw [rollbackStep_visited_sub name _ env _ s hs]
            exact names_nodup_removeDir _ name (hA _ _)
        · by_cases hv : m.package_name = name ∧ m.version = version
          · simp only [if_pos hv, List.mem_singleton] at hs
            subst hs
            exact hA _ _
          · simp only [if_neg hv, List.mem_cons] at hs
            rcases hs with rfl | hs
            · exact hA _ _
            · rw [rollbackStep_visited_sub name _ env _ s hs]
              exact names_nodup_removeDir _ name (hA _ _)
    · by_cases hdc : (dc || decide (1 ≤ k)) = true
      · simp only [hdc, if_true, List.mem_cons] at hs
        rcases hs with rfl | hs
        · exact hA _ _
        · rw [rollbackStep_visited_sub name _ env _ s hs]
          exact names_nodup_removeDir _ name (hA _ _)
      · have hdc' : (dc || decide (1 ≤ k)) = false := by simpa using hdc
        simp only [hdc', Bool.false_eq_true, if_false] at hs
        rw [rollbackStep_visited_sub name _ env pd s hs]
        exact names_nodup_removeDir pd name hnd

/-! ### Claim C3: superseding an installed different version -/

/-- C3: when a plugin is already installed at a version different from the
resolved target, `install` performs the uninstaller's removal of the old
directory as its very first side effect, before any download begins; if that
removal fails (external interference), the whole install aborts with the
removal error and no download ever happens; and, starting from a directory
with pairwise distinct subdirectory names, every intermediate filesystem
state of the whole run keeps names pairwise distinct - at no point do two
directories/metadata records exist for the same canonical name. -/
theorem C3_supersede (gr : Except MpmError (String × List Release))
    (env : Env) (pd : PluginsDirectory) (name : String) (rel : Release)
    (d : PluginDir) (m : PluginMetadata)
    (h1 : resolve gr = .ok (name, rel))
    (hd : findDir pd name = some d)
    (hm : d.metadata = some m)
    (hne : rel.version ≠ m.version) :
    (install gr env pd).effects.head? = some (.removeExisting name) ∧
    (env.rmtreeFails name = true →
      (install gr env pd).result = .error (.storageError name) ∧
      ∀ u, Effect.download u ∉ (install gr env pd).effects) ∧
    ((pd.dirs.map PluginDir.name).Nodup →
      ∀ s ∈ (install gr env pd).visited,
        (s.dirs.map PluginDir.name).Nodup) := by
  by_cases hrm : env.rmtreeFails name
  · have hun : uninstall name pd env = (.error (.storageError name), pd) := by
      unfold uninstall
      rw [hd]
      simp [hrm]
    refine ⟨?_, fun _ => ⟨?_, ?_⟩, ?_⟩
    · simp [install, h1, hd, hm, hne, hun]
    · simp [install, h1, hd, hm, hne, hun]
    · intro u
      simp [install, h1, hd, hm, hne, hun]
    · intro hnd s hs
      simp [install, h1, hd, hm, hne, hun] at hs
      subst hs
      exact hnd
  · have hrm' : env.rmtreeFails name = false := by simpa using hrm
    have hun : uninstall name pd env = (.ok (), removeDir pd name) := by
      unfold uninstall
      rw [hd]
      simp [hrm']
    refine ⟨?_, fun h => absurd h (by simp [hrm']), ?_⟩
    · simp [install, h1, hd, hm, hne, hun]
    · intro hnd s hs
      simp only [install, h1, hd, hm, if_neg hne, hun, List.mem_cons] at hs
      rcases hs with rfl | hs
      · exact hnd
      · rcases hs with rfl | hs
        · exact names_nodup_removeDir pd name hnd
        · exact installFresh_visited_nodup name rel.version rel.url env
            (removeDir pd name) (findDir_removeDir_self pd name)
            (names_nodup_removeDir pd name hnd) s hs

/-- Witness for C3: upgrading installed `foo==1.0` to `foo==2.0`; the first
side effect of the run is the removal of the old version. -/
theorem C3_supersede_witness :
    (install (.ok ("foo", [⟨"2.0", "u"⟩]))
        ⟨false, fun _ => false,
          ⟨["properties.yml"], some ⟨"foo", "2.0"⟩⟩, .ok⟩
        ⟨[⟨"foo", some ⟨"foo", "1.0"⟩, []⟩]⟩).effects.head? =
      some (.removeExisting "foo") :=
  (C3_supersede (.ok ("foo", [⟨"2.0", "u"⟩]))
    ⟨false, fun _ => false, ⟨["properties.yml"], some ⟨"foo", "2.0"⟩⟩, .ok⟩
    ⟨[⟨"foo", some ⟨"foo", "1.0"⟩, []⟩]⟩ "foo" ⟨"2.0", "u"⟩
    ⟨"foo", some ⟨"foo", "1.0"⟩, []⟩ ⟨"foo", "1.0"⟩
    rfl rfl rfl (by decide)).1

/-! ### Claim C5: version resolution -/

/-- C5: during resolution `install` applies the descriptor's version
constraint to the ordered release set returned by the index and selects one
release.  In the composition realised by the code - `get_releases` filters,
`releases.items()[-1]` takes the last entry - the selected release is the
last (highest-ordered) release satisfying the constraint; with no constraint
the filter keeps the whole index, so the last release overall is selected;
and when the constraint excludes every release the run fails with the
no-matching-release error (the `KeyError` re-raised by line 119) touching
nothing. -/
theorem C5_resolution (d : PluginDescriptor) (cn : String)
    (idx : List Release) (env : Env) (pd : PluginsDirectory) :
    (idx.filter (fun r => satisfies d.constraint r.version) = [] →
      (installCmd d cn idx env pd).result = .error .noMatchingRelease ∧
      (installCmd d cn idx env pd).final = pd ∧
      (installCmd d cn idx env pd).effects = []) ∧
    (∀ r, (idx.filter (fun r => satisfies d.constraint r.version)).getLast? =
        some r →
      resolve (get_releases d cn idx) = .ok (cn, r) ∧
      satisfies d.constraint r.version = true) ∧
    (d.constraint = none →
      idx.filter (fun r => satisfies d.constraint r.version) = idx) := by
  refine ⟨?_, ?_, ?_⟩
  · intro hemp
    have hg : get_releases d cn idx = .error .noMatchingRelease := by
      unfold get_releases
      simp [hemp]
    simp [installCmd, install, resolve, hg]
  · intro r hr
    have hne : idx.filter (fun r => satisfies d.constraint r.version) ≠ [] := by
      intro h
      rw [h] at hr
      simp at hr
    have hg : get_releases d cn idx =
        .ok (cn, idx.filter (fun r => satisfies d.constraint r.version)) := by
      unfold get_releases
      simp [List.isEmpty_iff, hne]
    refine ⟨?_, ?_⟩
    · simp [resolve, hg, hr]
    · have hmem : r ∈ idx.filter (fun r => satisfies d.constraint r.version) :=
        List.mem_of_getLast?_eq_some hr
      simpa using (List.mem_filter.mp hmem).2
  · intro hc
    simp [hc, satisfies, List.filter_true]

/-- Witness for C5: constraint `>=2.0` over the ordered releases 1.0, 2.0,
3.0 selects 3.0; constraint `>=9.0` over a lone release 1.0 fails with the
no-matching-release error. -/
theorem C5_resolution_witness :
    (resolve (get_releases ⟨"foo", some (.ge, "2.0")⟩ "foo"
        [⟨"1.0", "a"⟩, ⟨"2.0", "b"⟩, ⟨"3.0", "c"⟩]) =
      .ok ("foo", ⟨"3.0", "c"⟩) ∧
      satisfies (some (.ge, "2.0")) "3.0" = true) ∧
    (installCmd ⟨"foo", some (.ge, "9.0")⟩ "foo" [⟨"1.0", "a"⟩]
        ⟨false, fun _ => false, ⟨[], none⟩, .ok⟩ ⟨[]⟩).result =
      .error .noMatchingRelease :=
  ⟨(C5_resolution ⟨"foo", some (.ge, "2.0")⟩ "foo"
      [⟨"1.0", "a"⟩, ⟨"2.0", "b"⟩, ⟨"3.0", "c"⟩]
      ⟨false, fun _ => false, ⟨[], none⟩, .ok⟩ ⟨[]⟩).2.1
      ⟨"3.0", "c"⟩ (by decide),
   ((C5_resolution ⟨"foo", some (.ge, "9.0")⟩ "foo" [⟨"1.0", "a"⟩]
      ⟨false, fun _ => false, ⟨[], none⟩, .ok⟩ ⟨[]⟩).1 (by decide)).1⟩

/-! ### Claim C9: the descriptor grammar round-trips -/

theorem all_takeWhile {α : Type _} (p : α → Bool) (l : List α) :
    (l.takeWhile p).all p = true := by
  induction l with
  | nil => rfl
  | cons a t ih =>
    by_cases hp : p a
    · simp [List.takeWhile_cons_of_pos hp, hp, ih]
    · simp [List.takeWhile_cons_of_neg hp]

theorem takeWhile_of_all {α : Type _} (p : α → Bool) (l : List α)
    (h : l.all p = true) : l.takeWhile p = l ∧ l.dropWhile p = [] := by
  induction l with
  | nil => exact ⟨rfl, rfl⟩
  | cons a t ih =>
    simp only [List.all_cons, Bool.and_eq_true] at h
    obtain ⟨ih1, ih2⟩ := ih h.2
    exact ⟨by simp [List.takeWhile_cons_of_pos h.1, ih1],
      by simp [List.dropWhile_cons_of_pos h.1, ih2]⟩

theorem span_append {α : Type _} (p : α → Bool) (n : List α) (b : α)
    (t : List α) (hn : n.all p = true) (hb : p b = false) :
    (n ++ b :: t).takeWhile p = n ∧ (n ++ b :: t).dropWhile p = b :: t := by
  induction n with
  | nil =>
    have hb' : ¬ p b = true := by simp [hb]
    constructor
    · simp [List.takeWhile_cons_of_neg hb']
    · simp [List.dropWhile_cons_of_neg hb']
  | cons a n1 ih =>
    simp only [List.all_cons, Bool.and_eq_true] at hn
    obtain ⟨ih1, ih2⟩ := ih hn.2
    constructor
    · simp [List.takeWhile_cons_of_pos hn.1, ih1]
    · simp [List.dropWhile_cons_of_pos hn.1, ih2]

theorem parseOp_sound (l : List Char) (op : CmpOp) (v : List Char)
    (h : parseOp l = some (op, v)) : l = opRender op ++ v := by
  rcases l with _ | ⟨c1, rest1⟩
  · simp [parseOp] at h
  · rcases rest1 with _ | ⟨c2, rest2⟩
    · simp only [parseOp] at h
      by_cases h1 : c1 = '='
      · rw [if_pos h1] at h
        exact absurd h (by simp)
      · rw [if_neg h1] at h
        by_cases h1g : c1 = '>'
        · rw [if_pos h1g] at h
          obtain ⟨rfl, rfl⟩ : CmpOp.gt = op ∧ ([] : List Char) = v := by
            simpa using h
          simp [opRender, h1g]
        · rw [if_neg h1g] at h
          by_cases h1l : c1 = '<'
          · rw [if_pos h1l] at h
            exact absurd h (by simp)
          · rw [if_neg h1l] at h
            exact absurd h (by simp)
    · simp only [parseOp] at h
      by_cases h1 : c1 = '='
      · rw [if_pos h1] at h
        by_cases h2 : c2 = '='
        · rw [if_pos h2] at h
          obtain ⟨rfl, rfl⟩ : CmpOp.eq = op ∧ rest2 = v := by simpa using h
          simp [opRender, h1, h2]
        · rw [if_neg h2] at h
          exact absurd h (by simp)
      · rw [if_neg h1] at h
        by_cases h1g : c1 = '>'
        · rw [if_pos h1g] at h
          by_cases h2 : c2 = '='
          · rw [if_pos h2] at h
            obtain ⟨rfl, rfl⟩ : CmpOp.ge = op ∧ rest2 = v := by simpa using h
            simp [opRender, h1g, h2]
          · rw [if_neg h2] at h
            obtain ⟨rfl, rfl⟩ : CmpOp.gt = op ∧ c2 :: rest2 = v := by
              simpa using h
            simp [opRender, h1g]
        · rw [if_neg h1g] at h
          by_cases h1l : c1 = '<'
          · rw [if_pos h1l] at h
            by_cases h2 : c2 = '='
            · rw [if_pos h2] at h
              obtain ⟨rfl, rfl⟩ : CmpOp.le = op ∧ rest2 = v := by simpa using h
              simp [opRender, h1l, h2]
            · rw [if_neg h2] at h
              exact absurd h (by simp)
          · rw [if_neg h1l] at h
            exact absurd h (by simp)

theorem parseOp_complete (op : CmpOp) (v : List Char)
    (hva : v.all isPkgChar = true) :
    parseOp (opRender op ++ v) = some (op, v) := by
  cases op
  · simp [parseOp, opRender]
  · rcases v with _ | ⟨c, v1⟩
    · simp [parseOp, opRender]
    · have hc : ¬ c = '=' := by
        simp only [List.all_cons, Bool.and_eq_true] at hva
        intro hce
        rw [hce] at hva
        exact absurd hva.1 (by decide)
      simp [parseOp, opRender, hc]
  · simp [parseOp, opRender]
  · simp [parseOp, opRender]

theorem parseRequest_sound (cs : List Char) (r : ParsedRequest)
    (h : parseRequest cs = some r) :
    wellFormedRequest r ∧ renderRequest r = cs := by
  simp only [parseRequest] at h
  by_cases hn : (cs.takeWhile isPkgChar).isEmpty = true
  · rw [if_pos hn] at h
    exact absurd h (by simp)
  · rw [if_neg hn] at h
    have hne : cs.takeWhile isPkgChar ≠ [] := by
      simpa [List.isEmpty_iff] using hn
    have hall : (cs.takeWhile isPkgChar).all isPkgChar = true :=
      all_takeWhile _ _
    have hcs : cs = cs.takeWhile isPkgChar ++ cs.dropWhile isPkgChar :=
      (List.takeWhile_append_dropWhile isPkgChar cs).symm
    rcases hr : cs.dropWhile isPkgChar with _ | ⟨b, t⟩
    · simp only [hr] at h
      obtain rfl : (⟨cs.takeWhile isPkgChar, none⟩ : ParsedRequest) = r := by
        simpa using h
      rw [hr, List.append_nil] at hcs
      refine ⟨⟨hne, hall, by simp⟩, ?_⟩
      simp only [renderRequest, List.append_nil]
      exact hcs.symm
    · simp only [hr] at h
      rcases hop : parseOp (b :: t) with _ | ⟨op, v⟩
      · simp only [hop] at h
        exact absurd h (by simp)
      · simp only [hop] at h
        by_cases hv : v.isEmpty = true
        · rw [if_pos hv] at h
          exact absurd h (by simp)
        · rw [if_neg hv] at h
          by_cases hva : v.all isPkgChar = true
          · rw [if_pos hva] at h
            obtain rfl :
                (⟨cs.takeWhile isPkgChar, some (op, v)⟩ : ParsedRequest)
                  = r := by simpa using h
            refine ⟨⟨hne, hall, ?_⟩, ?_⟩
            · intro op1 v1 hc
              obtain ⟨rfl, rfl⟩ : op = op1 ∧ v = v1 := by simpa using hc
              exact ⟨by simpa [List.isEmpty_iff] using hv, hva⟩
            · have hbt : (b :: t : List Char) = opRender op ++ v :=
                parseOp_sound _ op v hop
              rw [hr, hbt] at hcs
              simp only [renderRequest]
              exact hcs.symm
          · rw [if_neg hva] at h
            exact absurd h (by simp)

theorem parseRequest_complete (r : ParsedRequest)
    (h : wellFormedRequest r) : parseRequest (renderRequest r) = some r := by
  obtain ⟨name, c⟩ := r
  obtain ⟨hne, hall, hc⟩ := h
  rcases c with _ | ⟨op, v⟩
  · have hspan := takeWhile_of_all isPkgChar name hall
    simp only [renderRequest, List.append_nil]
    simp only [parseRequest, hspan.1, hspan.2]
    simp [List.isEmpty_iff, hne]
  · obtain ⟨hvne, hva⟩ := hc op v rfl
    obtain ⟨b, bs, hop, hbf⟩ :
        ∃ b bs, opRender op = b :: bs ∧ isPkgChar b = false := by
      cases op
      · exact ⟨'=', ['='], rfl, by decide⟩
      · exact ⟨'>', [], rfl, by decide⟩
      · exact ⟨'>', ['='], rfl, by decide⟩
      · exact ⟨'<', ['='], rfl, by decide⟩
    have hrend : renderRequest ⟨name, some (op, v)⟩ =
        name ++ b :: (bs ++ v) := by
      simp [renderRequest, hop]
    have hspan := span_append isPkgChar name b (bs ++ v) hall hbf
    have hpo : parseOp (b :: (bs ++ v)) = some (op, v) := by
      rw [← List.cons_append, ← hop]
      exact parseOp_complete op v hva
    rw [hrend]
    simp only [parseRequest, hspan.1, hspan.2]
    simp [List.isEmpty_iff, hne, hpo, hvne, hva]

/-- C9: the descriptor grammar round-trips.  Every well-formed request
(non-empty name over the package alphabet, optionally one of the four
operators followed by a non-empty version) parses back from its rendering to
itself; and whatever the parse accepts is well-formed and renders back to the
exact input - so on every string outside the grammar the parse fails (the
`ValueError` of lines 86-88), `plugin_request` being a pure function with no
side effects. -/
theorem C9_parse_roundtrip :
    (∀ r : ParsedRequest, wellFormedRequest r →
      parseRequest (renderRequest r) = some r) ∧
    ∀ (cs : List Char) (r : ParsedRequest), parseRequest cs = some r →
      wellFormedRequest r ∧ renderRequest r = cs :=
  ⟨parseRequest_complete, parseRequest_sound⟩

/-- Witness for C9: the request `foo>=1.0` round-trips. -/
theorem C9_parse_roundtrip_witness :
    parseRequest (renderRequest ⟨['f', 'o', 'o'],
        some (.ge, ['1', '.', '0'])⟩) =
      some ⟨['f', 'o', 'o'], some (.ge, ['1', '.', '0'])⟩ :=
  C9_parse_roundtrip.1 ⟨['f', 'o', 'o'], some (.ge, ['1', '.', '0'])⟩
    ⟨by decide, by decide, fun op v hc => by
      obtain ⟨rfl, rfl⟩ : CmpOp.ge = op ∧ ['1', '.', '0'] = v := by
        simpa using hc
      exact ⟨by decide, by decide⟩⟩

end Mpm
